import Mathlib

/-!
# Verification of the terminal-service core (`src/node/terminal.ts`)

A shallow embedding of the platform-strategy terminal service: platform
dispatch, argument quoting, environment merging, the PATH probe, terminal
launching on the Windows / Linux / macOS strategies, and process-tree
termination on the Default strategy.

JavaScript strings that undergo character-level processing (the `quote`
helper) are modelled as `List Char`; other strings are Lean `String`s.
External effects (filesystem existence checks, `execSync`, `spawn`,
`spawnSync`) are modelled as explicit oracle parameters; a synchronous call
that can throw is an oracle returning `Except String _`.  A promise that
settles exactly once is modelled by its final settlement value.
-/

namespace VSCodeTerminal

/-! ## Platform dispatch (`Terminal.terminalService`) -/

/-- The four platform strategies (classes `DefaultTerminalService`,
`WindowsTerminalService`, `LinuxTerminalService`, `MacTerminalService`). -/
inductive TerminalServiceKind where
  | windows
  | mac
  | linux
  | dflt
deriving DecidableEq, Repr

/-- The selection logic of `Terminal.terminalService` (terminal.ts lines
34–42): the if/else-if chain on `process.platform`. -/
def selectTerminalService (platform : String) : TerminalServiceKind :=
  if platform = "win32" then .windows
  else if platform = "darwin" then .mac
  else if platform = "linux" then .linux
  else .dflt

/-- `Terminal.terminalService` including the lazy cache
`Terminal._terminalService` (terminal.ts line 33): on a `none` cache the
strategy is computed and stored; on a `some` cache the stored instance is
returned unchanged.  Returns the dispatched strategy and the new cache. -/
def terminalService (cache : Option TerminalServiceKind) (platform : String) :
    TerminalServiceKind × Option TerminalServiceKind :=
  match cache with
  | some s => (s, some s)
  | none =>
    let s := selectTerminalService platform
    (s, some s)

/-! ## Argument quoting (`quote`, terminal.ts lines 274–285) -/

/-- One iteration of the loop body of `quote`: wrap the argument in double
quotes when it contains a space (`a.indexOf(' ') >= 0`), otherwise leave it
as is. -/
def quoteArg (a : List Char) : List Char :=
  if ' ' ∈ a then '"' :: a ++ ['"'] else a

/-- The `quote` helper: each argument, quoted if necessary, followed by a
space, all concatenated (the loop `r += quoted; r += ' '`). -/
def quote : List (List Char) → List Char
  | [] => []
  | a :: rest => quoteArg a ++ ' ' :: quote rest

/-- Modelled from the spec: the word-splitting a POSIX-style shell applies to
a command string under standard quoting rules — this "shell" collaborator is
not part of the repository.  `' '`, tab and newline separate words. -/
def shellDelim (c : Char) : Bool :=
  c = ' ' || c = '\t' || c = '\n'

mutual
/-- Modelled from the spec: shell word-splitting outside double quotes.
`acc = none` means no word is in progress; `some w` is the word built so
far.  A double quote enters quoted mode (starting a word if none was in
progress); an unterminated quote is a syntax error (`none`). -/
def shellSplitAux : List Char → Option (List Char) → Option (List (List Char))
  | [], none => some []
  | [], some acc => some [acc]
  | c :: cs, acc =>
    if shellDelim c then
      match acc with
      | none => shellSplitAux cs none
      | some a => (fun ws => a :: ws) <$> shellSplitAux cs none
    else if c = '"' then
      shellSplitQuoted cs (acc.getD [])
    else
      shellSplitAux cs (some (acc.getD [] ++ [c]))

/-- Modelled from the spec: shell word-splitting inside double quotes —
every character is literal until the closing quote. -/
def shellSplitQuoted : List Char → List Char → Option (List (List Char))
  | [], _ => none
  | c :: cs, acc =>
    if c = '"' then shellSplitAux cs (some acc)
    else shellSplitQuoted cs (acc ++ [c])
end

/-- Modelled from the spec: split a command string into its argument words
under standard shell quoting rules. -/
def shellSplit (s : List Char) : Option (List (List Char)) :=
  shellSplitAux s none

/-! ## Environment merging (`extendObject`, terminal.ts lines 287–296)

A JavaScript object with string values is an association list whose keys
are unique; the assignment `objectCopy[key] = object[key]` replaces the
value of an existing key in place or appends a fresh key at the end. -/

/-- The JS property assignment `obj[k] = v`: replace the value of `k` if the
key is present, otherwise append `(k, v)`. -/
def setKey : List (String × String) → String → String → List (String × String)
  | [], k, v => [(k, v)]
  | (k', v') :: rest, k, v =>
    if k' = k then (k, v) :: rest else (k', v') :: setKey rest k v

/-- The JS property read `obj[k]`: the value at the first occurrence of the
key, or `undefined` (`none`). -/
def getKey : List (String × String) → String → Option String
  | [], _ => none
  | (k', v) :: rest, k => if k' = k then some v else getKey rest k

/-- `extendObject(objectCopy, object)`: assign every own property of
`object` onto `objectCopy`, in key order, and return `objectCopy`. -/
def extendObject (objectCopy object : List (String × String)) :
    List (String × String) :=
  object.foldl (fun acc kv => setKey acc kv.1 kv.2) objectCopy

/-- The merged environment built by the Windows and Linux launchers
(terminal.ts lines 128 and 196):
`extendObject(extendObject({}, process.env), envVars)`. -/
def mergedEnv (processEnv envVars : List (String × String)) :
    List (String × String) :=
  extendObject (extendObject [] processEnv) envVars

/-- The keys of a JS object, in order. -/
def objKeys (obj : List (String × String)) : List String :=
  obj.map Prod.fst

/-! ## Errors, spawn primitives and promise outcomes -/

/-- `TerminalError` (terminal.ts lines 49–58): a message and an optional
numeric help-link id (`linkId?: number`). -/
structure TerminalError where
  message : String
  linkId : Option Nat
deriving DecidableEq, Repr

/-- A call issued to the asynchronous spawn primitive `CP.spawn`: program,
argument vector, and the options that the terminal service sets. -/
structure SpawnCall where
  prog : String
  args : List String
  cwd : Option String
  env : Option (List (String × String))
  windowsVerbatimArguments : Bool
deriving DecidableEq, Repr

/-- The event that first settles the promise of a launcher that listens on
its child process: an `error` event with a spawn error, or an `exit` event
with the child's exit code. -/
inductive SpawnEvent where
  | error (err : String)
  | exit (code : Int)
deriving DecidableEq, Repr

/-- The settlement of a `launchInTerminal` promise: resolved — with the
spawned child-process handle, identified by its spawn call, when the
strategy passes one to the caller — or rejected with a `TerminalError`, or
rejected with a native spawn error. -/
inductive LaunchResult where
  | resolved (handle : Option SpawnCall)
  | rejectedTerminal (e : TerminalError)
  | rejectedSpawn (err : String)
deriving DecidableEq, Repr

/-- The settlement of a `killTree` promise. -/
inductive KillResult where
  | resolved
  | rejected (err : String)
deriving DecidableEq, Repr

/-- The value of `CP.spawnSync` (the fields `killTree` reads): the `error`
property, set exactly when the child could not be spawned, and the exit
`status`. -/
structure SpawnSyncResult where
  error : Option String
  status : Int
deriving DecidableEq, Repr

/-- The localized default of `console.title`: the terminal window title
`DefaultTerminalService.TERMINAL_TITLE`. -/
def TERMINAL_TITLE : String := "VS Code Console"

/-- `quote` lifted to the `String`-typed call sites (the Linux launcher). -/
def quoteString (args : List String) : String :=
  ⟨quote (args.map String.data)⟩

/-! ## `DefaultTerminalService` (terminal.ts lines 66–108) -/

namespace DefaultTerminalService

/-- The fixed path of the probing utility (terminal.ts line 69). -/
def WHICH : String := "/usr/bin/which"

/-- The `try` block of `DefaultTerminalService.isOnPath` (terminal.ts lines
98–103), with `FS.existsSync` and the throwing `CP.execSync` as oracles: if
`WHICH` does NOT exist (`!FS.existsSync(...)` — note the negation in the
source), run `` execSync(`${WHICH} '${program}'`) ``; then return `true`.
An `.error` is an exception escaping the block. -/
def isOnPathBody (fsExists : String → Bool) (execSync : String → Except String Unit)
    (program : String) : Except String Bool :=
  (if ¬ fsExists WHICH then execSync (WHICH ++ " '" ++ program ++ "'")
   else Except.ok ()).map (fun _ => true)

/-- `DefaultTerminalService.isOnPath` (terminal.ts lines 96–107): the `try`
block, with the `catch` clause that swallows every exception and falls
through to `return false`.  Inherited unchanged by the Linux and macOS
strategies, which do not override it. -/
def isOnPath (fsExists : String → Bool) (execSync : String → Except String Unit)
    (program : String) : Bool :=
  match isOnPathBody fsExists execSync program with
  | .ok b => b
  | .error _ => false

/-- `DefaultTerminalService.killTree` (terminal.ts lines 77–94): spawn the
companion `terminateProcess.sh` script synchronously with the pid as its
single argument; reject with `result.error` when set, reject with a thrown
exception (the `catch` clause), and resolve otherwise — the exit `status`
is never read.  Returns the `(command, argument-vector)` pair handed to
`spawnSync` together with the settlement. -/
def killTree (spawnSync : String → List String → Except String SpawnSyncResult)
    (dirname : String) (pid : Nat) : (String × List String) × KillResult :=
  let cmd := dirname ++ "/terminateProcess.sh"
  ((cmd, [toString pid]),
    match spawnSync cmd [toString pid] with
    | .error err => .rejected err
    | .ok result =>
      match result.error with
      | some e => .rejected e
      | none => .resolved)

end DefaultTerminalService

/-! ## `WindowsTerminalService` (terminal.ts lines 110–171) -/

namespace WindowsTerminalService

/-- terminal.ts line 112. -/
def CMD : String := "cmd.exe"

/-- terminal.ts line 113. -/
def WHERE : String := "where"

/-- `WindowsTerminalService.launchInTerminal` (terminal.ts lines 115–141):
build the quoted window title, the `" & pause"`-suffixed command string from
`` `""${args.join('" "')}" & pause"` ``, the `cmd.exe /c start …` argument
vector and the merged environment, spawn, and `resolve(cmd)`.  `resolve`
runs synchronously inside the executor while a spawn `error` event is
emitted on a later tick; a promise ignores settlements after the first, so
the settlement is always `resolved` with the child-process handle.  Returns
the spawn call and the settlement. -/
def launchInTerminal (processEnv : List (String × String)) (dir : String)
    (args : List String) (envVars : List (String × String)) :
    SpawnCall × LaunchResult :=
  let title := "\"" ++ dir ++ " - " ++ TERMINAL_TITLE ++ "\""
  let command := "\"\"" ++ String.intercalate ("\" \"") args ++ "\" & pause\""
  let cmdArgs := ["/c", "start", title, "/wait", "cmd.exe", "/c", command]
  let env := mergedEnv processEnv envVars
  let cmd : SpawnCall := ⟨CMD, cmdArgs, some dir, some env, true⟩
  (cmd, .resolved (some cmd))

/-- The `try` block of `WindowsTerminalService.isOnPath` (terminal.ts lines
162–165): `` execSync(`${WHERE} ${program}`) ``, then `true`. -/
def isOnPathBody (execSync : String → Except String Unit) (program : String) :
    Except String Bool :=
  (execSync (WHERE ++ " " ++ program)).map (fun _ => true)

/-- `WindowsTerminalService.isOnPath` (terminal.ts lines 160–170): the `try`
block with the `catch` clause that swallows every exception and falls
through to `return false`. -/
def isOnPath (execSync : String → Except String Unit) (program : String) : Bool :=
  match isOnPathBody execSync program with
  | .ok b => b
  | .error _ => false

end WindowsTerminalService

/-! ## `LinuxTerminalService` (terminal.ts lines 173–214) -/

namespace LinuxTerminalService

/-- The fixed terminal-emulator path (terminal.ts line 175). -/
def LINUX_TERM : String := "/usr/bin/gnome-terminal"

/-- The localized default of `press.any.key` (terminal.ts line 176). -/
def WAIT_MESSAGE : String := "Press any key to continue..."

/-- `LinuxTerminalService.launchInTerminal` (terminal.ts lines 178–213):
reject immediately with the `program.not.found` `TerminalError` (link id
20002) when `LINUX_TERM` is missing; otherwise spawn the emulator with the
`--title`/`-x bash -c` argument vector and the merged environment, then
settle on the child's first event: `error` rejects with the spawn error,
exit code `0` resolves with no handle (the child is only the launcher),
and a non-zero exit rejects with the generic `program.failed`
`TerminalError` that carries no link id.  Returns the spawn call made (if
any) and the settlement. -/
def launchInTerminal (fsExists : String → Bool) (ev : SpawnEvent)
    (processEnv : List (String × String)) (dir : String) (args : List String)
    (envVars : List (String × String)) : Option SpawnCall × LaunchResult :=
  if ¬ fsExists LINUX_TERM then
    (none, .rejectedTerminal ⟨"'" ++ LINUX_TERM ++ "' not found", some 20002⟩)
  else
    let bashCommand := quoteString args ++ "; echo; read -p \"" ++ WAIT_MESSAGE
      ++ "\" -n1;"
    let termArgs := ["--title", "\"" ++ TERMINAL_TITLE ++ "\"", "-x", "bash",
      "-c", "''" ++ bashCommand ++ "''"]
    let env := mergedEnv processEnv envVars
    let cmd : SpawnCall := ⟨LINUX_TERM, termArgs, some dir, some env, false⟩
    (some cmd,
      match ev with
      | .error err => .rejectedSpawn err
      | .exit code =>
        if code = 0 then .resolved none
        else .rejectedTerminal
          ⟨LINUX_TERM ++ " failed with exit code " ++ toString code, none⟩)

end LinuxTerminalService

/-! ## `MacTerminalService` (terminal.ts lines 216–267) -/

namespace MacTerminalService

/-- The AppleScript interpreter path (terminal.ts line 218). -/
def OSASCRIPT : String := "/usr/bin/osascript"

/-- `MacTerminalService.launchInTerminal` (terminal.ts lines 220–266):
invoke `osascript` on the companion `terminalHelper.scpt` with the title,
the working directory, every argument prefixed by `-pa` and every
environment variable prefixed by `-e` (the sequential `osaArgs.push` calls
are the list appends below); accumulate the chunks written to the child's
stderr stream; settle on the child's first event: `error` rejects with the
spawn error, exit code `0` resolves with no handle, and a non-zero exit
rejects with the accumulated stderr text when it is non-empty (string
truthiness of `if (stderr)`), otherwise with the generic `program.failed`
message.  Returns the spawn call and the settlement. -/
def launchInTerminal (dirname : String) (ev : SpawnEvent)
    (stderrChunks : List String) (dir : String) (args : List String)
    (envVars : List (String × String)) : SpawnCall × LaunchResult :=
  let osaArgs := [dirname ++ "/terminalHelper.scpt", "-t", TERMINAL_TITLE,
      "-w", dir]
    ++ args.flatMap (fun a => ["-pa", a])
    ++ envVars.flatMap (fun kv => ["-e", kv.1 ++ "=" ++ kv.2])
  let stderr := String.join stderrChunks
  (⟨OSASCRIPT, osaArgs, none, none, false⟩,
    match ev with
    | .error err => .rejectedSpawn err
    | .exit code =>
      if code = 0 then .resolved none
      else if stderr = "" then
        .rejectedTerminal
          ⟨OSASCRIPT ++ " failed with exit code " ++ toString code, none⟩
      else .rejectedTerminal ⟨stderr, none⟩)

end MacTerminalService

/-! ## Lemmas about shell word-splitting -/

/-- Entering quoted mode with no word in progress. -/
theorem shellSplitAux_open_quote (l : List Char) :
    shellSplitAux ('"' :: l) none = shellSplitQuoted l [] := rfl

/-- A space while a word is in progress emits the word. -/
theorem shellSplitAux_space (rest : List Char) (a : List Char) :
    shellSplitAux (' ' :: rest) (some a) =
      (fun ws => a :: ws) <$> shellSplitAux rest none := rfl

/-- Consuming a run of ordinary characters extends the word in progress. -/
theorem shellSplitAux_append_raw (a : List Char)
    (h : ∀ c ∈ a, shellDelim c = false ∧ c ≠ '"') (rest : List Char)
    (acc : List Char) :
    shellSplitAux (a ++ rest) (some acc) = shellSplitAux rest (some (acc ++ a)) := by
  induction a generalizing acc with
  | nil => simp
  | cons c a ih =>
    obtain ⟨hd, hq⟩ := h c (List.mem_cons_self c a)
    have hrest : ∀ x ∈ a, shellDelim x = false ∧ x ≠ '"' :=
      fun x hx => h x (List.mem_cons_of_mem c hx)
    have step : shellSplitAux ((c :: a) ++ rest) (some acc) =
        shellSplitAux (a ++ rest) (some (acc ++ [c])) := by
      simp [shellSplitAux, hd, hq]
    rw [step, ih hrest]
    simp

/-- Consuming quoted characters up to the closing quote extends the word. -/
theorem shellSplitQuoted_append (a : List Char) (h : ∀ c ∈ a, c ≠ '"')
    (rest : List Char) (acc : List Char) :
    shellSplitQuoted (a ++ '"' :: rest) acc = shellSplitAux rest (some (acc ++ a)) := by
  induction a generalizing acc with
  | nil => simp [shellSplitQuoted]
  | cons c a ih =>
    have hq := h c (List.mem_cons_self c a)
    have hrest : ∀ x ∈ a, x ≠ '"' := fun x hx => h x (List.mem_cons_of_mem c hx)
    have step : shellSplitQuoted ((c :: a) ++ '"' :: rest) acc =
        shellSplitQuoted (a ++ '"' :: rest) (acc ++ [c]) := by
      simp [shellSplitQuoted, hq]
    rw [step, ih hrest]
    simp

/-- An argument that survives quoting: no embedded double quote, and — when
it has no space, so that `quoteArg` leaves it bare — nonempty and free of
the remaining shell delimiters. -/
def shellSafeArg (a : List Char) : Prop :=
  '"' ∉ a ∧ (' ' ∈ a ∨ (a ≠ [] ∧ '\t' ∉ a ∧ '\n' ∉ a))

instance (a : List Char) : Decidable (shellSafeArg a) := by
  unfold shellSafeArg
  infer_instance

/-- Splitting one quoted argument followed by its separating space. -/
theorem quoteArg_shellSplit (a : List Char) (ha : shellSafeArg a)
    (rest : List Char) :
    shellSplitAux (quoteArg a ++ ' ' :: rest) none =
      (fun ws => a :: ws) <$> shellSplitAux rest none := by
  obtain ⟨hq, hgood⟩ := ha
  by_cases hs : ' ' ∈ a
  · have expand : quoteArg a ++ ' ' :: rest = '"' :: (a ++ '"' :: ' ' :: rest) := by
      simp [quoteArg, hs]
    rw [expand, shellSplitAux_open_quote,
      shellSplitQuoted_append a (fun c hc h => hq (h ▸ hc)) (' ' :: rest) []]
    simp [shellSplitAux_space]
  · rcases hgood with h | ⟨hne, ht, hn⟩
    · exact absurd h hs
    · match a, hne with
      | c :: a', _ =>
        have hchars : ∀ x ∈ c :: a', shellDelim x = false ∧ x ≠ '"' := by
          intro x hx
          have hx1 : x ≠ ' ' := fun h => hs (h ▸ hx)
          have hx2 : x ≠ '\t' := fun h => ht (h ▸ hx)
          have hx3 : x ≠ '\n' := fun h => hn (h ▸ hx)
          exact ⟨by simp [shellDelim, hx1, hx2, hx3], fun h => hq (h ▸ hx)⟩
        obtain ⟨hd, hqc⟩ := hchars c (List.mem_cons_self c a')
        have step : shellSplitAux ((c :: a') ++ ' ' :: rest) none =
            shellSplitAux (a' ++ ' ' :: rest) (some [c]) := by
          simp [shellSplitAux, hd, hqc]
        have expand : quoteArg (c :: a') ++ ' ' :: rest = (c :: a') ++ ' ' :: rest := by
          simp [quoteArg, hs]
        rw [expand, step,
          shellSplitAux_append_raw a' (fun x hx => hchars x (List.mem_cons_of_mem c hx))
            (' ' :: rest) [c], shellSplitAux_space]
        rfl

/-- Round trip of `quote` against shell word-splitting, for shell-safe
arguments. -/
theorem quote_shellSplit_roundtrip (args : List (List Char))
    (h : ∀ a ∈ args, shellSafeArg a) :
    shellSplit (quote args) = some args := by
  unfold shellSplit
  induction args with
  | nil => rfl
  | cons a args ih =>
    have : quote (a :: args) = quoteArg a ++ ' ' :: quote args := rfl
    rw [this, quoteArg_shellSplit a (h a (List.mem_cons_self a args)),
      ih (fun x hx => h x (List.mem_cons_of_mem a hx))]
    rfl

/-! ## Lemmas about object extension -/

theorem getKey_setKey (m : List (String × String)) (k k' : String) (v : String) :
    getKey (setKey m k v) k' = if k = k' then some v else getKey m k' := by
  induction m with
  | nil => simp [setKey, getKey]
  | cons hd tl ih =>
    obtain ⟨k₁, v₁⟩ := hd
    by_cases h1 : k₁ = k
    · subst h1
      by_cases h2 : k₁ = k'
      · subst h2
        simp [setKey, getKey]
      · simp [setKey, getKey, h2]
    · by_cases h2 : k₁ = k'
      · subst h2
        have : k ≠ k₁ := fun h => h1 h.symm
        simp [setKey, getKey, h1, this]
      · simp [setKey, getKey, h1, h2, ih]

theorem getKey_eq_none_of_not_mem (l : List (String × String)) (k : String)
    (h : k ∉ objKeys l) : getKey l k = none := by
  induction l with
  | nil => rfl
  | cons hd tl ih =>
    obtain ⟨k₁, v₁⟩ := hd
    simp only [objKeys, List.map_cons, List.mem_cons, not_or] at h
    have h1 : k₁ ≠ k := fun he => h.1 he.symm
    simp [getKey, h1, ih h.2]

/-- A key of a uniquely-keyed object reads back its value. -/
theorem getKey_of_mem (l : List (String × String)) (k v : String)
    (hnd : (objKeys l).Nodup) (hm : (k, v) ∈ l) : getKey l k = some v := by
  induction l with
  | nil => cases hm
  | cons hd tl ih =>
    obtain ⟨k₁, v₁⟩ := hd
    simp only [objKeys, List.map_cons, List.nodup_cons] at hnd
    rcases List.mem_cons.mp hm with he | hm'
    · injection he with h1 h2
      subst h1
      subst h2
      simp [getKey]
    · have hk : k ∈ objKeys tl := List.mem_map.mpr ⟨(k, v), hm', rfl⟩
      have hne : k₁ ≠ k := fun he' => hnd.1 (he' ▸ hk)
      simp [getKey, hne, ih hnd.2 hm']

/-- Keys absent from the extending object fall through to the copy. -/
theorem getKey_extendObject_not_mem (l : List (String × String)) (k : String)
    (h : k ∉ objKeys l) (m : List (String × String)) :
    getKey (extendObject m l) k = getKey m k := by
  induction l generalizing m with
  | nil => rfl
  | cons hd tl ih =>
    obtain ⟨k₁, v₁⟩ := hd
    simp only [objKeys, List.map_cons, List.mem_cons, not_or] at h
    have hne : k₁ ≠ k := fun he => h.1 he.symm
    have hext : extendObject m ((k₁, v₁) :: tl) = extendObject (setKey m k₁ v₁) tl := rfl
    rw [hext, ih h.2, getKey_setKey]
    simp [hne]

/-- `extendObject` looks up as: the extending object (with unique keys, as
JS object key iteration produces) wins on its own keys, everything else
falls through to the extended copy. -/
theorem getKey_extendObject (l : List (String × String))
    (h : (objKeys l).Nodup) (m : List (String × String)) (k : String) :
    getKey (extendObject m l) k = (getKey l k).elim (getKey m k) some := by
  induction l generalizing m with
  | nil => rfl
  | cons hd tl ih =>
    obtain ⟨k₁, v₁⟩ := hd
    simp only [objKeys, List.map_cons, List.nodup_cons] at h
    have hext : extendObject m ((k₁, v₁) :: tl) = extendObject (setKey m k₁ v₁) tl := rfl
    rw [hext, ih h.2]
    cases htl : getKey tl k with
    | some v =>
      have hk : k ∈ objKeys tl := by
        by_contra hnk
        rw [getKey_eq_none_of_not_mem tl k hnk] at htl
        exact Option.noConfusion htl
      have hne : k₁ ≠ k := fun he => h.1 (he ▸ hk)
      simp [getKey, htl, hne]
    | none =>
      by_cases hke : k₁ = k <;> simp [getKey, htl, getKey_setKey, hke]

/-! ## Claim theorems -/

/-- C1 — code-bug evaluation.  `DefaultTerminalService.isOnPath` as written
(terminal.ts line 99, `if (!FS.existsSync(WHICH))`) probes only when
`/usr/bin/which` is ABSENT: when the `which` utility exists, it returns
`true` without consulting the probe at all (first conjunct: every probe
fails, yet the result is `true`); when `which` is missing, the probe does
run (second conjunct: a failing probe gives `false`; third conjunct: a
succeeding probe gives `true`).  This is the inverse of the specified
behavior (probe when `which` exists; optimistic `true` when it is
missing). -/
theorem C1_default_isOnPath_inverted :
    DefaultTerminalService.isOnPath (fun p => p == DefaultTerminalService.WHICH)
      (fun _ => .error ("Command failed")) ("missing-program") = true ∧
    DefaultTerminalService.isOnPath (fun _ => false)
      (fun _ => .error ("Command failed")) ("node") = false ∧
    DefaultTerminalService.isOnPath (fun _ => false)
      (fun _ => .ok ()) ("node") = true :=
  ⟨rfl, rfl, rfl⟩

/-- C2 — `isOnPath` returns a boolean for every input on every strategy and
never propagates an exception; an exception escaping the `try` block
(`isOnPathBody` ending in `.error`) is swallowed into `false`.  The Linux
and macOS strategies do not override `isOnPath`, so the Default and Windows
variants cover all four strategies. -/
theorem C2_isOnPath_never_throws :
    ∀ (fsExists : String → Bool) (execSync : String → Except String Unit)
      (program : String),
      (DefaultTerminalService.isOnPath fsExists execSync program = true ∨
        DefaultTerminalService.isOnPath fsExists execSync program = false) ∧
      (∀ e, DefaultTerminalService.isOnPathBody fsExists execSync program =
          .error e →
        DefaultTerminalService.isOnPath fsExists execSync program = false) ∧
      (WindowsTerminalService.isOnPath execSync program = true ∨
        WindowsTerminalService.isOnPath execSync program = false) ∧
      (∀ e, WindowsTerminalService.isOnPathBody execSync program = .error e →
        WindowsTerminalService.isOnPath execSync program = false) := by
  intro fsExists execSync program
  refine ⟨?_, ?_, ?_, ?_⟩
  · exact (DefaultTerminalService.isOnPath fsExists execSync program).eq_false_or_eq_true
  · intro e he
    simp [DefaultTerminalService.isOnPath, he]
  · exact (WindowsTerminalService.isOnPath execSync program).eq_false_or_eq_true
  · intro e he
    simp [WindowsTerminalService.isOnPath, he]

/-- C2 witness: concrete failing probes on both variants collapse to
`false`. -/
theorem C2_isOnPath_never_throws_witness :
    DefaultTerminalService.isOnPath (fun _ => false) (fun _ => .error ("boom"))
      ("a;b|c") = false ∧
    WindowsTerminalService.isOnPath (fun _ => .error ("boom")) ("") = false :=
  ⟨(C2_isOnPath_never_throws (fun _ => false) (fun _ => .error ("boom"))
      ("a;b|c")).2.1 ("boom") rfl,
    (C2_isOnPath_never_throws (fun _ => false) (fun _ => .error ("boom"))
      ("")).2.2.2 ("boom") rfl⟩

/-- C3 — strategy selection is a total deterministic function of the
platform identifier (`selectTerminalService` is a Lean function, hence
total and deterministic): `win32`, `darwin` and `linux` map to their
strategies and every other identifier to the Default strategy; the lazy
cache makes a first call compute `selectTerminalService` and every repeated
call return the cached instance with the cache unchanged. -/
theorem C3_platform_dispatch :
    selectTerminalService ("win32") = .windows ∧
    selectTerminalService ("darwin") = .mac ∧
    selectTerminalService ("linux") = .linux ∧
    (∀ p : String, p ≠ "win32" → p ≠ "darwin" → p ≠ "linux" →
      selectTerminalService p = .dflt) ∧
    (∀ p : String, (terminalService none p).1 = selectTerminalService p) ∧
    (∀ (p : String) (c : Option TerminalServiceKind),
      terminalService ((terminalService c p).2) p =
        ((terminalService c p).1, (terminalService c p).2)) := by
  refine ⟨rfl, rfl, rfl, ?_, fun p => rfl, ?_⟩
  · intro p h1 h2 h3
    simp [selectTerminalService, h1, h2, h3]
  · intro p c
    cases c <;> rfl

/-- C3 witness: an unlisted platform dispatches to the Default strategy, and
a repeated call after the first returns the same cached instance. -/
theorem C3_platform_dispatch_witness :
    selectTerminalService ("freebsd") = .dflt ∧
    terminalService ((terminalService none ("linux")).2) ("linux") =
      ((terminalService none ("linux")).1, (terminalService none ("linux")).2) :=
  ⟨C3_platform_dispatch.2.2.2.1 ("freebsd") (by decide) (by decide) (by decide),
    C3_platform_dispatch.2.2.2.2.2 ("linux") none⟩

/-- C5 — environment-merge precedence: on the merged environment, every
key of the override mapping reads back the override's value, every key
absent from the override reads back the ambient value, and the
spec's example evaluates as stated.  The embedding is pure, so the ambient
object cannot be mutated; the fresh copy taken by the source (line 128,
`extendObject({}, process.env)`) is the inner `extendObject [] processEnv`
of `mergedEnv`.  The key-uniqueness hypotheses capture that JS object key
iteration visits each key once. -/
theorem C5_mergedEnv_precedence :
    (∀ (processEnv envVars : List (String × String)) (k v : String),
      (objKeys envVars).Nodup → (k, v) ∈ envVars →
      getKey (mergedEnv processEnv envVars) k = some v) ∧
    (∀ (processEnv envVars : List (String × String)) (k : String),
      (objKeys processEnv).Nodup → k ∉ objKeys envVars →
      getKey (mergedEnv processEnv envVars) k = getKey processEnv k) ∧
    mergedEnv [("PATH", "/bin")] [("PATH", "/custom"), ("FOO", "1")] =
      [("PATH", "/custom"), ("FOO", "1")] := by
  refine ⟨?_, ?_, by decide⟩
  · intro processEnv envVars k v hnd hm
    unfold mergedEnv
    rw [getKey_extendObject envVars hnd, getKey_of_mem envVars k v hnd hm]
    rfl
  · intro processEnv envVars k hnd hk
    unfold mergedEnv
    rw [getKey_extendObject_not_mem envVars k hk, getKey_extendObject processEnv hnd]
    cases h : getKey processEnv k <;> simp [getKey]

/-- C5 witness: the spec's example, read back through `getKey`. -/
theorem C5_mergedEnv_precedence_witness :
    getKey (mergedEnv [("PATH", "/bin")] [("PATH", "/custom"), ("FOO", "1")])
      ("PATH") = some "/custom" ∧
    getKey (mergedEnv [("HOME", "/root")] [("PATH", "/custom")]) ("HOME") =
      getKey [("HOME", "/root")] ("HOME") :=
  ⟨C5_mergedEnv_precedence.1 _ _ _ _ (by decide) (by decide),
    C5_mergedEnv_precedence.2.1 _ _ _ (by decide) (by decide)⟩

/-- C6 — Linux missing-emulator: when `/usr/bin/gnome-terminal` does not
exist, `launchInTerminal` rejects immediately — no spawn call is made —
with the `program.not.found` `TerminalError` carrying link id 20002; the
generic non-zero-exit failure, by contrast, carries no link id. -/
theorem C6_linux_missing_emulator :
    (∀ (fsExists : String → Bool) (ev : SpawnEvent)
      (processEnv : List (String × String)) (dir : String) (args : List String)
      (envVars : List (String × String)),
      fsExists LinuxTerminalService.LINUX_TERM = false →
      LinuxTerminalService.launchInTerminal fsExists ev processEnv dir args
          envVars =
        (none,
          .rejectedTerminal ⟨"'/usr/bin/gnome-terminal' not found", some 20002⟩)) ∧
    (∀ (fsExists : String → Bool) (code : Int)
      (processEnv : List (String × String)) (dir : String) (args : List String)
      (envVars : List (String × String)),
      fsExists LinuxTerminalService.LINUX_TERM = true → code ≠ 0 →
      (LinuxTerminalService.launchInTerminal fsExists (.exit code) processEnv dir
          args envVars).2 =
        .rejectedTerminal
          ⟨"/usr/bin/gnome-terminal failed with exit code " ++ toString code,
            none⟩) := by
  constructor
  · intro fsExists ev processEnv dir args envVars h
    simp only [LinuxTerminalService.launchInTerminal, h, Bool.false_eq_true,
      not_false_eq_true, if_true, Prod.mk.injEq, true_and]
    rfl
  · intro fsExists code processEnv dir args envVars h hc
    simp only [LinuxTerminalService.launchInTerminal, h, not_true_eq_false,
      if_false, hc, if_neg hc]
    rfl

/-- C6 witness: the two failure shapes at concrete inputs. -/
theorem C6_linux_missing_emulator_witness :
    LinuxTerminalService.launchInTerminal (fun _ => false) (.exit 0) [] ("/tmp")
      ["node", "x.js"] [] =
      (none,
        .rejectedTerminal ⟨"'/usr/bin/gnome-terminal' not found", some 20002⟩) ∧
    (LinuxTerminalService.launchInTerminal (fun _ => true) (.exit 3) [] ("/tmp")
      ["node", "x.js"] []).2 =
      .rejectedTerminal
        ⟨"/usr/bin/gnome-terminal failed with exit code 3", none⟩ :=
  ⟨C6_linux_missing_emulator.1 _ _ _ _ _ _ rfl,
    C6_linux_missing_emulator.2 _ 3 _ _ _ _ rfl (by decide)⟩

/-- C7 — Windows launch: the promise resolves with the spawned
child-process handle (the `resolve(cmd)` call runs synchronously in the
executor, so it does not wait for the terminal window), `cmd.exe` is the
spawned program, and the argument vector is exactly
`/c start "<dir> - <title>" /wait cmd.exe /c ""<arg1>" "<arg2>" … & pause"`
with every argument quote-joined into the final command string; the
concrete conjunct instantiates the spec's example. -/
theorem C7_windows_launch :
    (∀ (processEnv : List (String × String)) (dir : String) (args : List String)
      (envVars : List (String × String)),
      ∃ call : SpawnCall,
        WindowsTerminalService.launchInTerminal processEnv dir args envVars =
          (call, .resolved (some call)) ∧
        call.prog = "cmd.exe" ∧
        call.args = ["/c", "start", "\"" ++ dir ++ " - " ++ TERMINAL_TITLE ++ "\"",
          "/wait", "cmd.exe", "/c",
          "\"\"" ++ String.intercalate ("\" \"") args ++ "\" & pause\""]) ∧
    (WindowsTerminalService.launchInTerminal [] ("/tmp") ["node", "app.js"]
        [("A", "1")]).1.args =
      ["/c", "start", "\"/tmp - VS Code Console\"", "/wait", "cmd.exe", "/c",
        "\"\"node\" \"app.js\" & pause\""] := by
  refine ⟨?_, rfl⟩
  intro processEnv dir args envVars
  exact ⟨_, rfl, rfl, rfl⟩

/-- C8 — the Default strategy's `killTree` hands `spawnSync` the companion
script with the target pid as its only argument, and the promise resolves
exactly when the spawn neither threw nor reported a spawn error — in
particular a non-zero exit `status` of the script still resolves. -/
theorem C8_default_killTree :
    ∀ (spawnSync : String → List String → Except String SpawnSyncResult)
      (dirname : String) (pid : Nat),
      (DefaultTerminalService.killTree spawnSync dirname pid).1 =
        (dirname ++ "/terminateProcess.sh", [toString pid]) ∧
      ((DefaultTerminalService.killTree spawnSync dirname pid).2 =
          KillResult.resolved ↔
        ∃ r, spawnSync (dirname ++ "/terminateProcess.sh") [toString pid] =
            .ok r ∧ r.error = none) := by
  intro spawnSync dirname pid
  refine ⟨rfl, ?_⟩
  cases hs : spawnSync (dirname ++ "/terminateProcess.sh") [toString pid] with
  | error err => simp [DefaultTerminalService.killTree, hs]
  | ok r =>
    cases hr : r.error with
    | some e => simp [DefaultTerminalService.killTree, hs, hr]
    | none => simp [DefaultTerminalService.killTree, hs, hr]

/-- C8 witness: a spawn with a non-zero exit status but no error resolves;
a spawn error (missing / non-executable script) rejects. -/
theorem C8_default_killTree_witness :
    (DefaultTerminalService.killTree (fun _ _ => .ok ⟨none, 1⟩) ("/app") 1234).1 =
      ("/app/terminateProcess.sh", ["1234"]) ∧
    (DefaultTerminalService.killTree (fun _ _ => .ok ⟨none, 1⟩) ("/app") 1234).2 =
      KillResult.resolved ∧
    (DefaultTerminalService.killTree (fun _ _ => .error ("spawn ENOENT"))
      ("/app") 1234).2 ≠ KillResult.resolved := by
  refine ⟨(C8_default_killTree _ _ _).1, ?_, ?_⟩
  · exact (C8_default_killTree (fun _ _ => .ok ⟨none, 1⟩) ("/app") 1234).2.mpr
      ⟨⟨none, 1⟩, rfl, rfl⟩
  · intro h
    obtain ⟨r, hr, -⟩ := (C8_default_killTree (fun _ _ => .error ("spawn ENOENT"))
      ("/app") 1234).2.mp h
    exact Except.noConfusion hr

/-- C9 — macOS exit handling: exit code 0 resolves with no value; a
non-zero exit rejects with a `TerminalError` whose message is the
accumulated stderr text whenever any was captured, and only otherwise the
generic interpreter-and-exit-code message; neither carries a link id. -/
theorem C9_mac_exit_handling :
    ∀ (dirname : String) (stderrChunks : List String) (dir : String)
      (args : List String) (envVars : List (String × String)) (code : Int),
      (code = 0 →
        (MacTerminalService.launchInTerminal dirname (.exit code) stderrChunks
            dir args envVars).2 = .resolved none) ∧
      (code ≠ 0 → String.join stderrChunks ≠ "" →
        (MacTerminalService.launchInTerminal dirname (.exit code) stderrChunks
            dir args envVars).2 =
          .rejectedTerminal ⟨String.join stderrChunks, none⟩) ∧
      (code ≠ 0 → String.join stderrChunks = "" →
        (MacTerminalService.launchInTerminal dirname (.exit code) stderrChunks
            dir args envVars).2 =
          .rejectedTerminal
            ⟨"/usr/bin/osascript failed with exit code " ++ toString code,
              none⟩) := by
  intro dirname stderrChunks dir args envVars code
  refine ⟨?_, ?_, ?_⟩
  · intro h
    simp [MacTerminalService.launchInTerminal, h]
  · intro h hs
    simp [MacTerminalService.launchInTerminal, h, hs]
  · intro h hs
    simp only [MacTerminalService.launchInTerminal, hs, if_neg h, if_pos rfl]
    rfl

/-- C9 witness: the three settlement shapes at concrete inputs; the second
shows the captured stderr text preferred over the generic message. -/
theorem C9_mac_exit_handling_witness :
    (MacTerminalService.launchInTerminal ("/app") (.exit 0) [] ("/tmp") ["node"]
      []).2 = .resolved none ∧
    (MacTerminalService.launchInTerminal ("/app") (.exit 2) ["bo", "om"] ("/tmp")
      ["node"] []).2 = .rejectedTerminal ⟨"boom", none⟩ ∧
    (MacTerminalService.launchInTerminal ("/app") (.exit 3) [] ("/tmp") ["node"]
      []).2 =
      .rejectedTerminal ⟨"/usr/bin/osascript failed with exit code 3", none⟩ :=
  ⟨(C9_mac_exit_handling ("/app") [] ("/tmp") ["node"] [] 0).1 rfl,
    (C9_mac_exit_handling ("/app") ["bo", "om"] ("/tmp") ["node"] [] 2).2.1
      (by decide) (by decide),
    (C9_mac_exit_handling ("/app") [] ("/tmp") ["node"] [] 3).2.2
      (by decide) rfl⟩

/-- C4 counterexample — the round-trip property as claimed is false: the
argument list `["a\tb", "c d"]` contains an element with an embedded space,
yet its quoted command string `a\tb "c d" ` splits under shell rules into
`["a", "b", "c d"]`, not the original list (the tab inside the unquoted
first argument acts as a word separator). -/
theorem C4_quote_roundtrip_counterexample :
    (∃ a ∈ [['a', '\t', 'b'], ['c', ' ', 'd']], ' ' ∈ a) ∧
    shellSplit (quote [['a', '\t', 'b'], ['c', ' ', 'd']]) ≠
      some [['a', '\t', 'b'], ['c', ' ', 'd']] := by
  decide

/-- C4 (amended) — the round trip holds for argument lists with at least
one embedded-space element provided no element contains a double quote and
every element without a space is nonempty and free of tab and newline. -/
theorem C4_quote_roundtrip_amended (args : List (List Char))
    (hsafe : ∀ a ∈ args, shellSafeArg a)
    (_hspace : ∃ a ∈ args, ' ' ∈ a) :
    shellSplit (quote args) = some args :=
  quote_shellSplit_roundtrip args hsafe

/-- C4 witness: the spec's example `["run", "my file.js"]` round-trips. -/
theorem C4_quote_roundtrip_amended_witness :
    shellSplit (quote [['r', 'u', 'n'],
      ['m', 'y', ' ', 'f', 'i', 'l', 'e', '.', 'j', 's']]) =
      some [['r', 'u', 'n'], ['m', 'y', ' ', 'f', 'i', 'l', 'e', '.', 'j', 's']] :=
  C4_quote_roundtrip_amended _ (by decide) (by decide)

/-- C10 — `quoteArg` wraps exactly the space-containing arguments in double
quotes, preserving their characters without any escaping, and `quote`
appends a space after every argument; consequently the round trip fails:
a tab-containing argument without a space splits into two words, and an
argument with an embedded double quote leaves the splitter with an
unterminated quote. -/
theorem C10_quote_not_shell_safe :
    (∀ a : List Char, ' ' ∈ a → quoteArg a = '"' :: a ++ ['"']) ∧
    (∀ a : List Char, ' ' ∉ a → quoteArg a = a) ∧
    (∀ args : List (List Char),
      quote args = (args.map (fun a => quoteArg a ++ [' '])).flatten) ∧
    shellSplit (quote [['a', '\t', 'b']]) = some [['a'], ['b']] ∧
    shellSplit (quote [['c', '"', 'd']]) = none := by
  refine ⟨?_, ?_, ?_, by decide, by decide⟩
  · intro a h
    simp [quoteArg, h]
  · intro a h
    simp [quoteArg, h]
  · intro args
    induction args with
    | nil => rfl
    | cons a args ih => simp [quote, ih]

/-- C10 witness: wrapping applies exactly to space-containing arguments. -/
theorem C10_quote_not_shell_safe_witness :
    quoteArg ['m', 'y', ' ', 'f'] = ['"', 'm', 'y', ' ', 'f', '"'] ∧
    quoteArg ['r', 'u', 'n'] = ['r', 'u', 'n'] :=
  ⟨C10_quote_not_shell_safe.1 _ (by decide),
    C10_quote_not_shell_safe.2.1 _ (by decide)⟩

end VSCodeTerminal
